import Mathlib

/-!
Verification of the ray tracer in this repository against its specification.

The floating-point arithmetic of the source (Rust `f64`) is embedded as exact
real arithmetic: finite values become `ℝ`, and where the code manipulates the
infinities `f64::INFINITY` / `f64::NEG_INFINITY` as data (the empty interval,
the scene-intersection interval) the scalar type is `EReal`, whose `⊤` and `⊥`
model them.  Randomness drawn inside a function (`random_unit`, `random_0_1`)
becomes an explicit argument of the embedded function.  Fallible operations
(`Bvh::from_list` asserts on an empty slice) return `Option`.
-/

namespace RayTrace

noncomputable section

open Classical

/-! ## vec3.rs -/

/-- `Vec3` from src/vec3.rs: three `f64` components. -/
@[ext]
structure Vec3 where
  x : ℝ
  y : ℝ
  z : ℝ

instance : Add Vec3 := ⟨fun a b => ⟨a.x + b.x, a.y + b.y, a.z + b.z⟩⟩

instance : Sub Vec3 := ⟨fun a b => ⟨a.x - b.x, a.y - b.y, a.z - b.z⟩⟩

instance : Neg Vec3 := ⟨fun a => ⟨-a.x, -a.y, -a.z⟩⟩

/-- `impl Mul<f64> for Vec3`: componentwise scaling. -/
instance : HMul Vec3 ℝ Vec3 := ⟨fun a r => ⟨a.x * r, a.y * r, a.z * r⟩⟩

@[simp] theorem Vec3.add_def (a b : Vec3) :
    a + b = ⟨a.x + b.x, a.y + b.y, a.z + b.z⟩ := rfl

@[simp] theorem Vec3.sub_def (a b : Vec3) :
    a - b = ⟨a.x - b.x, a.y - b.y, a.z - b.z⟩ := rfl

@[simp] theorem Vec3.neg_def (a : Vec3) : -a = ⟨-a.x, -a.y, -a.z⟩ := rfl

@[simp] theorem Vec3.mul_def (a : Vec3) (r : ℝ) :
    a * r = ⟨a.x * r, a.y * r, a.z * r⟩ := rfl

/-- `Vec3::scale`: componentwise product. -/
def Vec3.scale (a b : Vec3) : Vec3 := ⟨a.x * b.x, a.y * b.y, a.z * b.z⟩

/-- `Vec3::length_squared`. -/
def Vec3.length_squared (a : Vec3) : ℝ := a.x * a.x + a.y * a.y + a.z * a.z

/-- `Vec3::length`. -/
def Vec3.length (a : Vec3) : ℝ := Real.sqrt a.length_squared

/-- `Vec3::dot`. -/
def Vec3.dot (a b : Vec3) : ℝ := a.x * b.x + a.y * b.y + a.z * b.z

/-- `Vec3::cross`. -/
def Vec3.cross (a b : Vec3) : Vec3 :=
  ⟨a.y * b.z - a.z * b.y, a.z * b.x - a.x * b.z, a.x * b.y - a.y * b.x⟩

/-- `impl Div<f64> for Vec3`: `self * (1.0 / rhs)`. -/
def Vec3.div (a : Vec3) (r : ℝ) : Vec3 := a * (1 / r)

/-- `Vec3::unit`: `self / self.length()`. -/
def Vec3.unit (a : Vec3) : Vec3 := a.div a.length

/-- `Vec3::near_zero`: every component below `1e-8` in absolute value. -/
def Vec3.near_zero (a : Vec3) : Prop :=
  |a.x| < 1e-8 ∧ |a.y| < 1e-8 ∧ |a.z| < 1e-8

/-- `Vec3::reflect`: `self - normal * (2.0 * self.dot(normal))`. -/
def Vec3.reflect (a normal : Vec3) : Vec3 := a - normal * (2 * a.dot normal)

/-- `Vec3::refract`. -/
def Vec3.refract (a normal : Vec3) (etai_over_etat : ℝ) : Vec3 :=
  let cos_theta := min ((-a).dot normal) 1
  let r_perpendicular := (a + normal * cos_theta) * etai_over_etat
  let r_parallel := normal * (-Real.sqrt |1 - r_perpendicular.length_squared|)
  r_perpendicular + r_parallel

/-! ## interval.rs -/

/-- `Interval<T>` from src/interval.rs. -/
@[ext]
structure Interval (α : Type) where
  min : α
  max : α

/-- `Interval::merge`: componentwise `f64::min` / `f64::max`; for values of a
linear order (every non-NaN `f64`) these are lattice `min` / `max`. -/
def Interval.merge {α : Type} [LinearOrder α] (i other : Interval α) : Interval α :=
  ⟨Min.min i.min other.min, Max.max i.max other.max⟩

/-- `Interval::empty`: `(f64::INFINITY, f64::NEG_INFINITY)`, embedded at
`EReal` where the two infinities are `⊤` and `⊥`. -/
def Interval.empty : Interval EReal := ⟨⊤, ⊥⟩

/-- `Interval::size`. -/
def Interval.size (i : Interval ℝ) : ℝ := i.max - i.min

/-- `Interval::contains`: `x >= min && x <= max`. -/
def Interval.contains (i : Interval ℝ) (v : ℝ) : Prop := i.min ≤ v ∧ v ≤ i.max

/-- `Interval::surrounds`: `x > min && x < max`. -/
def Interval.surrounds (i : Interval ℝ) (v : ℝ) : Prop := i.min < v ∧ v < i.max

/-- `Interval::clamp`. -/
def Interval.clamp (i : Interval ℝ) (v : ℝ) : ℝ :=
  if v < i.min then i.min else if v > i.max then i.max else v

/-- `Interval::expand`. -/
def Interval.expand (i : Interval ℝ) (delta : ℝ) : Interval ℝ :=
  ⟨i.min - delta / 2, i.max + delta / 2⟩

/-! ## aabb.rs -/

/-- `Axis` from src/aabb.rs. -/
inductive Axis where
  | X
  | Y
  | Z
deriving DecidableEq

/-- `Vec3::get`. -/
def Vec3.get (a : Vec3) : Axis → ℝ
  | Axis.X => a.x
  | Axis.Y => a.y
  | Axis.Z => a.z

/-- `Aabb` from src/aabb.rs: one interval per axis. -/
@[ext]
structure Aabb (α : Type) where
  x : Interval α
  y : Interval α
  z : Interval α

/-- `Aabb::get`. -/
def Aabb.get {α : Type} (b : Aabb α) : Axis → Interval α
  | Axis.X => b.x
  | Axis.Y => b.y
  | Axis.Z => b.z

/-- `Aabb::merge`: componentwise `Interval::merge`. -/
def Aabb.merge {α : Type} [LinearOrder α] (b other : Aabb α) : Aabb α :=
  ⟨b.x.merge other.x, b.y.merge other.y, b.z.merge other.z⟩

/-- `#[derive(Default)] Aabb`: every interval is `(0.0, 0.0)`. -/
def Aabb.default : Aabb ℝ := ⟨⟨0, 0⟩, ⟨0, 0⟩, ⟨0, 0⟩⟩

/-- `Aabb::from_points`: the box with a sorted interval per axis. -/
def Aabb.from_points (a b : Vec3) : Aabb ℝ :=
  ⟨if a.x ≤ b.x then ⟨a.x, b.x⟩ else ⟨b.x, a.x⟩,
   if a.y ≤ b.y then ⟨a.y, b.y⟩ else ⟨b.y, a.y⟩,
   if a.z ≤ b.z then ⟨a.z, b.z⟩ else ⟨b.z, a.z⟩⟩

/-- `Aabb::longest_axis`. -/
def Aabb.longest_axis (b : Aabb ℝ) : Axis :=
  if b.x.size > b.y.size ∧ b.x.size > b.z.size then Axis.X
  else if b.y.size > b.z.size then Axis.Y
  else Axis.Z

/-- The predicate of claim C3: the box contains a point (each coordinate lies
in the axis interval in the sense of `Interval::contains`). -/
def Aabb.containsPoint (b : Aabb ℝ) (p : Vec3) : Prop :=
  b.x.contains p.x ∧ b.y.contains p.y ∧ b.z.contains p.z

/-! ## Claim C6: merge algebra -/

theorem Interval.merge_comm {α : Type} [LinearOrder α] (i j : Interval α) :
    i.merge j = j.merge i := by
  simp [Interval.merge, min_comm, max_comm]

theorem Interval.merge_assoc {α : Type} [LinearOrder α] (i j k : Interval α) :
    (i.merge j).merge k = i.merge (j.merge k) := by
  simp [Interval.merge, min_assoc, max_assoc]

theorem Interval.merge_self {α : Type} [LinearOrder α] (i : Interval α) :
    i.merge i = i := by
  simp [Interval.merge]

/-- Claim C6: `Aabb::merge` is commutative and associative over all AABB
values, merging a box with itself gives the box back, and the empty interval
`(+∞, -∞)` is a two-sided identity of `Interval::merge`.  Stated over `EReal`,
the extended reals, which model every non-NaN `f64` value including the two
infinities. -/
theorem c6_merge_algebra :
    (∀ a b : Aabb EReal, a.merge b = b.merge a)
    ∧ (∀ a b c : Aabb EReal, (a.merge b).merge c = a.merge (b.merge c))
    ∧ (∀ a : Aabb EReal, a.merge a = a)
    ∧ (∀ i : Interval EReal, Interval.empty.merge i = i ∧ i.merge Interval.empty = i) := by
  refine ⟨fun a b => ?_, fun a b c => ?_, fun a => ?_, fun i => ⟨?_, ?_⟩⟩
  · simp [Aabb.merge, Interval.merge_comm]
  · simp [Aabb.merge, Interval.merge_assoc]
  · simp [Aabb.merge, Interval.merge_self]
  · simp [Aabb.merge, Interval.merge, Interval.empty]
  · simp [Aabb.merge, Interval.merge, Interval.empty]

/-! ## Claim C9: longest axis -/

/-- Counterexample to claim C9 as stated: in the box with X extent 1, Y extent
1 and Z extent 0 the X and Y extents tie for the greatest extent, yet
`longest_axis` answers Y, not X as the claimed X-first tie break would. -/
theorem c9_tie_breaks_to_y_cex :
    (Aabb.mk ⟨0, 1⟩ ⟨0, 1⟩ ⟨0, 0⟩ : Aabb ℝ).longest_axis = Axis.Y
    ∧ (Aabb.mk ⟨0, 1⟩ ⟨0, 1⟩ ⟨0, 0⟩ : Aabb ℝ).x.size
        = (Aabb.mk ⟨0, 1⟩ ⟨0, 1⟩ ⟨0, 0⟩ : Aabb ℝ).y.size
    ∧ (Aabb.mk ⟨0, 1⟩ ⟨0, 1⟩ ⟨0, 0⟩ : Aabb ℝ).z.size
        < (Aabb.mk ⟨0, 1⟩ ⟨0, 1⟩ ⟨0, 0⟩ : Aabb ℝ).x.size := by
  refine ⟨?_, by norm_num [Interval.size], by norm_num [Interval.size]⟩
  norm_num [Aabb.longest_axis, Interval.size]

/-- Claim C9, amended: `longest_axis` always returns an axis whose interval
has the greatest extent, but ties are broken toward the later axis, not toward
X: X is returned only when its extent is strictly greatest, an X-Y tie above Z
yields Y, and a tie involving Z yields Z. -/
theorem c9_longest_axis_amended :
    ∀ b : Aabb ℝ,
      (b.get b.longest_axis).size = max (max b.x.size b.y.size) b.z.size
      ∧ (b.x.size = b.y.size → b.z.size < b.x.size → b.longest_axis = Axis.Y)
      ∧ (b.y.size = b.z.size → b.x.size ≤ b.y.size → b.longest_axis = Axis.Z)
      ∧ (b.x.size = b.z.size → b.y.size ≤ b.z.size → b.longest_axis = Axis.Z) := by
  intro b
  unfold Aabb.longest_axis
  refine ⟨?_, ?_, ?_, ?_⟩
  · split_ifs with h1 h2
    · simp only [Aabb.get]
      rw [max_eq_left h1.1.le, max_eq_left h1.2.le]
    · push_neg at h1
      simp only [Aabb.get]
      have hxy : b.x.size ≤ b.y.size := by
        by_contra h
        push_neg at h
        have := h1 h
        linarith
      rw [max_eq_right hxy, max_eq_left h2.le]
    · push_neg at h1 h2
      simp only [Aabb.get]
      have hxz : b.x.size ≤ b.z.size := by
        rcases lt_or_le b.y.size b.x.size with h | h
        · exact h1 h
        · linarith
      rw [max_eq_right (max_le hxz h2)]
  · intro hxy hz
    rw [if_neg (by simp [hxy]), if_pos (by rw [← hxy]; exact hz)]
  · intro hyz hxy
    rw [if_neg (by rintro ⟨h, -⟩; exact hxy.not_lt h), if_neg (by simp [hyz])]
  · intro hxz hyz
    rw [if_neg (by rintro ⟨-, h⟩; rw [hxz] at h; exact lt_irrefl _ h),
      if_neg hyz.not_lt]

/-- Witness for C9: the amended theorem at the concrete box with extents
(1, 1, 0) gives Y, an axis of maximal extent 1. -/
theorem c9_longest_axis_witness :
    (Aabb.mk ⟨0, 1⟩ ⟨0, 1⟩ ⟨0, 0⟩ : Aabb ℝ).longest_axis = Axis.Y := by
  have h := (c9_longest_axis_amended (Aabb.mk ⟨0, 1⟩ ⟨0, 1⟩ ⟨0, 0⟩)).2.1
  exact h (by norm_num [Interval.size]) (by norm_num [Interval.size])

/-! ## ray.rs -/

/-- `Ray` from src/ray.rs. -/
structure Ray where
  origin : Vec3
  direction : Vec3
  time : ℝ

/-- `Ray::at`: `origin + direction * t`. -/
def Ray.at (r : Ray) (t : ℝ) : Vec3 := r.origin + r.direction * t

/-! ## hit.rs: HitRecord -/

/-- `HitRecord` from src/hit.rs. -/
structure HitRecord (M : Type) where
  point : Vec3
  normal : Vec3
  t : ℝ
  material : M
  front_face : Bool

/-- `HitRecord::new`: orient the stored normal against the ray direction and
remember in `front_face` whether the geometric normal already pointed that
way. -/
def HitRecord.new {M : Type} (point normal : Vec3) (t : ℝ) (ray : Ray)
    (material : M) : HitRecord M :=
  let front_face : Bool := decide (ray.direction.dot normal < 0)
  { point := point
    normal := if front_face then normal else -normal
    t := t
    front_face := front_face
    material := material }

@[simp] theorem HitRecord.new_t {M : Type} (p n : Vec3) (t : ℝ) (r : Ray) (m : M) :
    (HitRecord.new p n t r m).t = t := rfl

@[simp] theorem HitRecord.new_point {M : Type} (p n : Vec3) (t : ℝ) (r : Ray) (m : M) :
    (HitRecord.new p n t r m).point = p := rfl

@[simp] theorem HitRecord.new_material {M : Type} (p n : Vec3) (t : ℝ) (r : Ray) (m : M) :
    (HitRecord.new p n t r m).material = m := rfl

/-! ## Claim C7: normal orientation in HitRecord::new -/

/-- Counterexample to claim C7 as stated: with ray direction (1,0,0) and
geometric normal (0,1,0) the two are perpendicular, and the stored normal's
dot product with the direction is 0, not negative. -/
theorem c7_perpendicular_normal_cex :
    ¬ ((HitRecord.new ⟨0, 0, 0⟩ ⟨0, 1, 0⟩ 1 ⟨⟨0, 0, 0⟩, ⟨1, 0, 0⟩, 0⟩ ()).normal.dot
        ⟨1, 0, 0⟩ < 0) := by
  norm_num [HitRecord.new, Vec3.dot]

/-- Claim C7, amended: `front_face` is true exactly when the geometric normal
already points against the ray direction (negative dot product), a false
`front_face` means the stored normal is the negation of the geometric one,
and whenever the geometric normal is not perpendicular to the ray direction
the stored normal's dot product with the direction is strictly negative (in
the perpendicular case it is 0). -/
theorem c7_hit_record_normal_amended :
    ∀ {M : Type} (p n : Vec3) (t : ℝ) (r : Ray) (m : M),
      ((HitRecord.new p n t r m).front_face = true ↔ r.direction.dot n < 0)
      ∧ ((HitRecord.new p n t r m).front_face = true → (HitRecord.new p n t r m).normal = n)
      ∧ ((HitRecord.new p n t r m).front_face = false → (HitRecord.new p n t r m).normal = -n)
      ∧ (r.direction.dot n ≠ 0 → (HitRecord.new p n t r m).normal.dot r.direction < 0) := by
  intro M p n t r m
  refine ⟨by simp [HitRecord.new], ?_, ?_, ?_⟩
  · intro h
    simp only [HitRecord.new, decide_eq_true_eq] at h ⊢
    rw [if_pos (by simpa using h)]
  · intro h
    simp only [HitRecord.new, decide_eq_false_iff_not] at h ⊢
    rw [if_neg (by simpa using h)]
  · intro hne
    rcases lt_or_gt_of_ne hne with hlt | hgt
    · have : (HitRecord.new p n t r m).normal = n := by
        simp only [HitRecord.new]
        rw [if_pos (by simpa using hlt)]
      rw [this]
      calc n.dot r.direction = r.direction.dot n := by simp [Vec3.dot]; ring
        _ < 0 := hlt
    · have : (HitRecord.new p n t r m).normal = -n := by
        simp only [HitRecord.new]
        rw [if_neg (by simp [hgt.not_lt])]
      rw [this]
      have : (-n).dot r.direction = -(r.direction.dot n) := by simp [Vec3.dot]; ring
      rw [this]
      linarith

/-- Witness for C7: at ray direction (0,0,-1) and geometric normal (0,0,1)
the dot product is -1, nonzero, and the amended theorem yields a stored
normal pointing against the direction. -/
theorem c7_hit_record_normal_witness :
    (HitRecord.new ⟨0, 0, 0⟩ ⟨0, 0, 1⟩ 1 ⟨⟨0, 0, 0⟩, ⟨0, 0, (-1 : ℝ)⟩, 0⟩ ()).normal.dot
      (Vec3.mk 0 0 (-1)) < 0 := by
  have h := (c7_hit_record_normal_amended ⟨0, 0, 0⟩ ⟨0, 0, 1⟩ 1
    ⟨⟨0, 0, 0⟩, ⟨0, 0, (-1 : ℝ)⟩, 0⟩ ()).2.2.2
  exact h (by norm_num [Vec3.dot])

/-! ## material.rs

Each material's internal random draw (`Vec3::random_unit`, `random_0_1`)
becomes an explicit argument of the embedded `scatter`. -/

/-- `Lambertian` from src/material.rs. -/
structure Lambertian where
  albedo : Vec3

/-- `Metal` from src/material.rs. -/
structure Metal where
  albedo : Vec3
  fuzz : ℝ

/-- `Metal::new`: the fuzz is capped at 1. -/
def Metal.new (albedo : Vec3) (fuzz : ℝ) : Metal := ⟨albedo, min fuzz 1⟩

/-- `Dielectric` from src/material.rs. -/
structure Dielectric where
  refraction : ℝ

/-- `DiffuseLight` from src/material.rs. -/
structure DiffuseLight where
  color : Vec3

/-- `Dielectric::reflectance`, exactly as the source computes it:
`r0 * (1 - r0) * (1 - cos)^5` with `r0 = ((1 - ior) / (1 + ior))^2`. -/
def Dielectric.reflectance (d : Dielectric) (cos : ℝ) : ℝ :=
  let r0 := (1 - d.refraction) / (1 + d.refraction)
  let r0 := r0 * r0
  r0 * (1 - r0) * (1 - cos) ^ (5 : ℕ)

/-- The formula the spec names: Schlick's approximation of Fresnel
reflectance, `r0 + (1 - r0) * (1 - cos)^5` with the same `r0`.  Written from
the spec's words, to compare with the source's `Dielectric.reflectance`. -/
def schlickReflectance (ior cos : ℝ) : ℝ :=
  let r0 := ((1 - ior) / (1 + ior)) ^ (2 : ℕ)
  r0 + (1 - r0) * (1 - cos) ^ (5 : ℕ)

/-- `Lambertian::scatter` with the random unit vector passed in. -/
def Lambertian.scatter {M : Type} (l : Lambertian) (ray : Ray) (hit : HitRecord M)
    (rnd_unit : Vec3) : Option (Vec3 × Ray) :=
  let dir := hit.normal + rnd_unit
  let dir := if dir.near_zero then hit.normal else dir
  some (l.albedo, ⟨hit.point, dir, ray.time⟩)

/-- `Metal::scatter` with the random unit vector passed in. -/
def Metal.scatter {M : Type} (m : Metal) (ray : Ray) (hit : HitRecord M)
    (rnd_unit : Vec3) : Option (Vec3 × Ray) :=
  let reflected := ray.direction.reflect hit.normal
  let reflected := reflected.unit + rnd_unit * m.fuzz
  let scattered : Ray := ⟨hit.point, reflected, ray.time⟩
  if scattered.direction.dot hit.normal > 0 then some (m.albedo, scattered) else none

/-- `Dielectric::scatter` with the uniform random sample passed in. -/
def Dielectric.scatter {M : Type} (d : Dielectric) (ray : Ray) (hit : HitRecord M)
    (rnd : ℝ) : Option (Vec3 × Ray) :=
  let attenuation : Vec3 := ⟨1, 1, 1⟩
  let ri := if hit.front_face then 1 / d.refraction else d.refraction
  let unit_dir := ray.direction.unit
  let cos_theta := min ((-unit_dir).dot hit.normal) 1
  let sin_theta := Real.sqrt (1 - cos_theta * cos_theta)
  let direction :=
    if ri * sin_theta > 1 ∨ d.reflectance cos_theta > rnd then
      unit_dir.reflect hit.normal
    else
      unit_dir.refract hit.normal ri
  some (attenuation, ⟨hit.point, direction, ray.time⟩)

/-- `DiffuseLight::scatter`: never scatters. -/
def DiffuseLight.scatter {M : Type} (_ : DiffuseLight) (_ : Ray) (_ : HitRecord M) :
    Option (Vec3 × Ray) := none

/-- `DiffuseLight::emit`. -/
def DiffuseLight.emit (l : DiffuseLight) : Option Vec3 := some l.color

/-! ## Claim C4: Schlick reflectance -/

/-- Claim C4 fails on the code: the source multiplies where Schlick's
approximation adds.  At `ior = 3/2` and `cos = 0` (grazing incidence) the
source's `reflectance` gives `24/625 = 0.0384` while Schlick's formula,
which the spec names, gives `1`. -/
theorem c4_reflectance_not_schlick :
    Dielectric.reflectance ⟨3 / 2⟩ 0 = 24 / 625
    ∧ schlickReflectance (3 / 2) 0 = 1
    ∧ Dielectric.reflectance ⟨3 / 2⟩ 0 ≠ schlickReflectance (3 / 2) 0 := by
  norm_num [Dielectric.reflectance, schlickReflectance]

/-! ## Claim C8: scatter and emit contracts -/

/-- Claim C8: `Lambertian::scatter` and `Dielectric::scatter` always return
`Some`; `DiffuseLight::scatter` always returns `None` and its `emit` returns
its configured color; the dielectric attenuation is exactly (1,1,1), and the
Lambertian and Metal attenuations (the latter whenever `Some` is returned)
equal the configured albedo unchanged. -/
theorem c8_material_scatter_contracts :
    (∀ (M : Type) (l : Lambertian) (ray : Ray) (hit : HitRecord M) (rnd : Vec3),
        ∃ sr, l.scatter ray hit rnd = some (l.albedo, sr))
    ∧ (∀ (M : Type) (d : Dielectric) (ray : Ray) (hit : HitRecord M) (rnd : ℝ),
        ∃ sr, d.scatter ray hit rnd = some (⟨1, 1, 1⟩, sr))
    ∧ (∀ (M : Type) (dl : DiffuseLight) (ray : Ray) (hit : HitRecord M),
        dl.scatter ray hit = none)
    ∧ (∀ dl : DiffuseLight, dl.emit = some dl.color)
    ∧ (∀ (M : Type) (m : Metal) (ray : Ray) (hit : HitRecord M) (rnd att : Vec3) (sr : Ray),
        m.scatter ray hit rnd = some (att, sr) → att = m.albedo) := by
  refine ⟨fun M l ray hit rnd => ⟨_, rfl⟩, fun M d ray hit rnd => ⟨_, rfl⟩,
    fun M dl ray hit => rfl, fun dl => rfl, fun M m ray hit rnd att sr h => ?_⟩
  simp only [Metal.scatter] at h
  split_ifs at h with hcond
  simp only [Option.some.injEq, Prod.mk.injEq] at h
  exact h.1.symm

/-- Witness for C8: a concrete metal scatter that returns `Some`, whose
attenuation the theorem then pins to the configured albedo. -/
theorem c8_metal_attenuation_witness :
    ∃ att sr,
      Metal.scatter (Metal.new ⟨2, 3, 4⟩ 0) ⟨⟨0, 0, 0⟩, ⟨0, 0, -1⟩, 0⟩
          (HitRecord.new ⟨0, 0, 0⟩ ⟨0, 0, 1⟩ 1 ⟨⟨0, 0, 0⟩, ⟨0, 0, -1⟩, 0⟩ ()) ⟨5, 6, 7⟩
        = some (att, sr)
      ∧ att = Vec3.mk 2 3 4 := by
  have hnormal :
      (HitRecord.new ⟨0, 0, 0⟩ ⟨0, 0, 1⟩ 1 ⟨⟨0, 0, 0⟩, ⟨0, 0, (-1 : ℝ)⟩, 0⟩ ()).normal
        = Vec3.mk 0 0 1 := by
    simp only [HitRecord.new]
    rw [if_pos (by norm_num [Vec3.dot])]
  have heval :
      Metal.scatter (Metal.new ⟨2, 3, 4⟩ 0) ⟨⟨0, 0, 0⟩, ⟨0, 0, -1⟩, 0⟩
          (HitRecord.new ⟨0, 0, 0⟩ ⟨0, 0, 1⟩ 1 ⟨⟨0, 0, 0⟩, ⟨0, 0, -1⟩, 0⟩ ()) ⟨5, 6, 7⟩
        = some (⟨2, 3, 4⟩,
            ⟨(HitRecord.new ⟨0, 0, 0⟩ ⟨0, 0, 1⟩ 1 ⟨⟨0, 0, 0⟩, ⟨0, 0, -1⟩, 0⟩ ()).point,
              ⟨0, 0, 1⟩, 0⟩) := by
    unfold Metal.scatter
    rw [hnormal]
    norm_num [Metal.new, Vec3.reflect, Vec3.dot, Vec3.unit, Vec3.div, Vec3.length,
      Vec3.length_squared, Real.sqrt_one]
  exact ⟨_, _, heval,
    c8_material_scatter_contracts.2.2.2.2 _ _ _ _ _ _ _ heval⟩

/-! ## color.rs -/

/-- `linear_to_gamma` from src/color.rs: square root of a positive component,
0 otherwise. -/
def linear_to_gamma (c : ℝ) : ℝ := if c > 0 then Real.sqrt c else 0

/-- The constant `INTENSITY` interval of `Vec3::to_color`. -/
def intensity : Interval ℝ := ⟨0, 0.999⟩

/-- One channel of `Vec3::to_color`: `(256.0 * INTENSITY.clamp(channel)) as u8`.
The clamped value lies in `[0, 0.999]`, so the product lies in `[0, 255.744]`
and the `u8` cast truncates it toward zero: `Nat.floor`. -/
def toByte (c : ℝ) : ℕ := ⌊256 * intensity.clamp (linear_to_gamma c)⌋₊

/-- `Vec3::to_color`. -/
def Vec3.to_color (v : Vec3) : ℕ × ℕ × ℕ := (toByte v.x, toByte v.y, toByte v.z)

/-! ## camera.rs -/

/-- One pixel row of `Camera::render`'s output: the three channel values,
space-separated, as `writeln!(w, "{} {} {}", r, g, b)` prints them. -/
def pixelLine (c : Vec3) : String :=
  toString c.to_color.1 ++ " " ++ toString c.to_color.2.1 ++ " " ++ toString c.to_color.2.2

/-- `Camera::render`, abstracted over the per-pixel color (the sampled and
averaged radiance, whose randomness and parallel split are outside this
embedding): the list of lines written, in order.  The source first writes the
header `P3\n{width} {height}\n255` and then loops `j` over rows from the top
and `i` over columns, appending one line per pixel. -/
def Camera.render (width height : ℕ) (pixel : ℕ → ℕ → Vec3) : List String :=
  let header := ["P3", toString width ++ " " ++ toString height, "255"]
  (List.range height).foldl (fun buf j =>
    (List.range width).foldl (fun buf i => buf ++ [pixelLine (pixel i j)]) buf) header

/-- `Camera::ray_color`, abstracted over the scene: `hitF` is the scene's
`hit`, `scatterF` the hit's material scatter with its randomness already
drawn, `emitF` its emission.  The interval scalar is `EReal` so the upper
bound `f64::INFINITY` is `⊤`. -/
def Camera.ray_color {R : Type} (hitF : Ray → Interval EReal → Option R)
    (scatterF : R → Ray → Option (Vec3 × Ray)) (emitF : R → Option Vec3)
    (background : Vec3) : ℕ → Ray → Vec3
  | 0, _ => background
  | depth + 1, ray =>
    match hitF ray ⟨((0.001 : ℝ) : EReal), ⊤⟩ with
    | some hit =>
      match scatterF hit ray with
      | some (attenuation, scattered) =>
        (Camera.ray_color hitF scatterF emitF background depth scattered).scale attenuation
      | none => (emitF hit).getD background
    | none => background

/-! ## Claim C5: ray_color -/

/-- Claim C5: at depth 0 `ray_color` returns the background; at positive
depth it intersects the scene over `(0.001, +∞)`, returns the background on a
miss, recurses and multiplies componentwise by the attenuation when the hit
material scatters, and otherwise returns the material's emission if present,
else the background. -/
theorem c5_ray_color_cases :
    ∀ {R : Type} (hitF : Ray → Interval EReal → Option R)
      (scatterF : R → Ray → Option (Vec3 × Ray)) (emitF : R → Option Vec3)
      (bg : Vec3) (ray : Ray) (depth : ℕ),
      (Camera.ray_color hitF scatterF emitF bg 0 ray = bg)
      ∧ (hitF ray ⟨((0.001 : ℝ) : EReal), ⊤⟩ = none →
          Camera.ray_color hitF scatterF emitF bg (depth + 1) ray = bg)
      ∧ (∀ h att sc, hitF ray ⟨((0.001 : ℝ) : EReal), ⊤⟩ = some h →
          scatterF h ray = some (att, sc) →
          Camera.ray_color hitF scatterF emitF bg (depth + 1) ray
            = (Camera.ray_color hitF scatterF emitF bg depth sc).scale att)
      ∧ (∀ h e, hitF ray ⟨((0.001 : ℝ) : EReal), ⊤⟩ = some h →
          scatterF h ray = none → emitF h = some e →
          Camera.ray_color hitF scatterF emitF bg (depth + 1) ray = e)
      ∧ (∀ h, hitF ray ⟨((0.001 : ℝ) : EReal), ⊤⟩ = some h →
          scatterF h ray = none → emitF h = none →
          Camera.ray_color hitF scatterF emitF bg (depth + 1) ray = bg) := by
  intro R hitF scatterF emitF bg ray depth
  refine ⟨rfl, fun hmiss => ?_, fun h att sc hhit hsc => ?_, fun h e hhit hsc hem => ?_,
    fun h hhit hsc hem => ?_⟩
  · simp [Camera.ray_color, hmiss]
  · simp [Camera.ray_color, hhit, hsc]
  · simp [Camera.ray_color, hhit, hsc, hem]
  · simp [Camera.ray_color, hhit, hsc, hem]

/-- Witness for C5: on a scene with no objects every positive-depth call
returns the background (here the concrete color (7, 8, 9)). -/
theorem c5_ray_color_witness :
    Camera.ray_color (R := Unit) (fun _ _ => none) (fun _ _ => none) (fun _ => none)
      ⟨7, 8, 9⟩ 1 ⟨⟨0, 0, 0⟩, ⟨1, 0, 0⟩, 0⟩ = ⟨7, 8, 9⟩ :=
  (c5_ray_color_cases (fun _ _ => none) (fun _ _ => none) (fun _ => none)
    ⟨7, 8, 9⟩ ⟨⟨0, 0, 0⟩, ⟨1, 0, 0⟩, 0⟩ 0).2.1 rfl

/-! ## Claim C10: to_color and the render output -/

theorem foldl_append_map {α β : Type} (l : List α) (g : α → List β) (init : List β) :
    l.foldl (fun b a => b ++ g a) init = init ++ l.flatMap g := by
  induction l generalizing init with
  | nil => simp
  | cons a l ih => simp [List.foldl_cons, ih]

theorem flatMap_singleton_map {α β : Type} (l : List α) (g : α → β) :
    (l.flatMap fun a => [g a]) = l.map g := by
  induction l with
  | nil => rfl
  | cons a l ih => simp [ih]

theorem length_flatMap_const {α β : Type} (l : List α) (g : α → List β) (w : ℕ)
    (hg : ∀ a, (g a).length = w) : (l.flatMap g).length = l.length * w := by
  induction l with
  | nil => simp
  | cons a t ih =>
    simp only [List.flatMap_cons, List.length_append, ih, hg, List.length_cons]
    ring

/-- The closed form of the embedded `Camera::render` output: header lines,
then one line per pixel, row by row from the top. -/
theorem Camera.render_lines (w h : ℕ) (pixel : ℕ → ℕ → Vec3) :
    Camera.render w h pixel
      = ["P3", toString w ++ " " ++ toString h, "255"]
        ++ (List.range h).flatMap (fun j =>
            (List.range w).map (fun i => pixelLine (pixel i j))) := by
  unfold Camera.render
  have hinner : ∀ (j : ℕ) (buf : List String),
      (List.range w).foldl (fun buf i => buf ++ [pixelLine (pixel i j)]) buf
        = buf ++ (List.range w).map (fun i => pixelLine (pixel i j)) := by
    intro j buf
    exact (foldl_append_map (List.range w) (fun i => [pixelLine (pixel i j)]) buf).trans
      (by rw [flatMap_singleton_map])
  simp only [hinner]
  exact foldl_append_map (List.range h) _ _

/-- Claim C10: each color component is square-root gamma corrected with
non-positive components mapped to 0, clamped to `[0, 0.999]` and scaled to an
integer in 0..255 (components at or above 1 saturate at 255); and the
rendered output is the `P3` header with width, height and maximum channel
value 255, followed by one line of three channel values per pixel, row-major
from the top row, `3 + height * width` lines in all. -/
theorem c10_to_color_and_render :
    (∀ c : ℝ, c ≤ 0 → toByte c = 0)
    ∧ (∀ c : ℝ, toByte c ≤ 255)
    ∧ (∀ c : ℝ, 1 ≤ c → toByte c = 255)
    ∧ (∀ v : Vec3, v.to_color = (toByte v.x, toByte v.y, toByte v.z))
    ∧ (∀ (w h : ℕ) (pixel : ℕ → ℕ → Vec3),
        Camera.render w h pixel
          = ["P3", toString w ++ " " ++ toString h, "255"]
            ++ (List.range h).flatMap (fun j =>
                (List.range w).map (fun i => pixelLine (pixel i j)))
        ∧ (Camera.render w h pixel).length = 3 + h * w) := by
  have hclamp_le : ∀ c : ℝ, intensity.clamp c ≤ 0.999 := by
    intro c
    unfold Interval.clamp intensity
    split_ifs with h1 h2
    · norm_num
    · norm_num
    · push_neg at h2
      exact h2
  have hclamp_nonneg : ∀ c : ℝ, 0 ≤ intensity.clamp c := by
    intro c
    unfold Interval.clamp intensity
    split_ifs with h1 h2
    · norm_num
    · norm_num
    · push_neg at h1
      exact h1
  have hle : ∀ c : ℝ, toByte c ≤ 255 := by
    intro c
    unfold toByte
    have h256 : 256 * intensity.clamp (linear_to_gamma c) < 256 := by
      have := hclamp_le (linear_to_gamma c)
      nlinarith
    have hlt : ⌊256 * intensity.clamp (linear_to_gamma c)⌋₊ < 256 := by
      rw [Nat.floor_lt (by nlinarith [hclamp_nonneg (linear_to_gamma c)])]
      exact h256
    omega
  refine ⟨fun c hc => ?_, hle, fun c hc => ?_, fun v => rfl, fun w h pixel => ⟨?_, ?_⟩⟩
  · have hg : linear_to_gamma c = 0 := by
      unfold linear_to_gamma
      rw [if_neg (by linarith)]
    unfold toByte
    rw [hg]
    norm_num [Interval.clamp, intensity]
  · have hg : linear_to_gamma c = Real.sqrt c := by
      unfold linear_to_gamma
      rw [if_pos (by linarith)]
    have hge : (0.999 : ℝ) ≤ Real.sqrt c := by
      calc (0.999 : ℝ) ≤ 1 := by norm_num
        _ = Real.sqrt 1 := Real.sqrt_one.symm
        _ ≤ Real.sqrt c := Real.sqrt_le_sqrt hc
    have hclamp : intensity.clamp (linear_to_gamma c) = 0.999 := by
      rw [hg]
      simp only [Interval.clamp, intensity]
      split_ifs with h1 h2
      · linarith [Real.sqrt_nonneg c]
      · rfl
      · push_neg at h2
        linarith
    unfold toByte
    rw [hclamp]
    rw [show (256 : ℝ) * 0.999 = 255.744 by norm_num]
    rw [Nat.floor_eq_iff (by norm_num)]
    norm_num
  · exact Camera.render_lines w h pixel
  · rw [Camera.render_lines, List.length_append,
      length_flatMap_const _ _ w (fun j => by simp)]
    simp

/-- Witness for C10: a negative channel maps to byte 0 and a channel at or
above 1 saturates at byte 255. -/
theorem c10_to_color_witness : toByte (-2) = 0 ∧ toByte 4 = 255 :=
  ⟨c10_to_color_and_render.1 (-2) (by norm_num),
   c10_to_color_and_render.2.2.1 4 (by norm_num)⟩

/-! ## geo.rs -/

/-- `f64::EPSILON`, the machine epsilon `2^-52`, used by the parallel-ray
cutoffs in `Quad::hit` and `Triangle::hit`. -/
def f64Epsilon : ℝ := 1 / 2 ^ (52 : ℕ)

/-- `Sphere<T>` from src/geo.rs. -/
structure Sphere (M : Type) where
  center : Vec3
  radius : ℝ
  bbox : Aabb ℝ
  material : M

/-- `Sphere::new`: the box spans `center ± radius` per axis and the stored
radius is `radius.max(0.0)`. -/
def Sphere.new {M : Type} (center : Vec3) (radius : ℝ) (material : M) : Sphere M :=
  let rvec : Vec3 := ⟨radius, radius, radius⟩
  { center := center
    radius := max radius 0
    bbox := Aabb.from_points (center - rvec) (center + rvec)
    material := material }

/-- `Triangle<T>` from src/geo.rs. -/
structure Triangle (M : Type) where
  a : Vec3
  b : Vec3
  c : Vec3
  normal : Vec3
  bbox : Aabb ℝ
  material : M

/-- `Triangle::new`. -/
def Triangle.new {M : Type} (a b c : Vec3) (material : M) : Triangle M :=
  { a := a
    b := b
    c := c
    normal := ((b - a).cross (c - a)).unit
    bbox :=
      ⟨⟨min (min a.x b.x) c.x, max (max a.x b.x) c.x⟩,
       ⟨min (min a.y b.y) c.y, max (max a.y b.y) c.y⟩,
       ⟨min (min a.z b.z) c.z, max (max a.z b.z) c.z⟩⟩
    material := material }

/-- `Quad<T>` from src/geo.rs. -/
structure Quad (M : Type) where
  origin : Vec3
  u : Vec3
  v : Vec3
  w : Vec3
  normal : Vec3
  bbox : Aabb ℝ
  material : M

/-- `Quad::new`, exactly as the source computes it: note that `bbox_d2` is
built from the pair `(origin + u, origin + u)` - the same point twice. -/
def Quad.new {M : Type} (origin u v : Vec3) (material : M) : Quad M :=
  let bbox_d1 := Aabb.from_points origin (origin + u + v)
  let bbox_d2 := Aabb.from_points (origin + u) (origin + u)
  let n := u.cross v
  { origin := origin
    u := u
    v := v
    w := n.div (n.dot n)
    normal := n.unit
    bbox := bbox_d1.merge bbox_d2
    material := material }

@[simp] theorem Quad.new_origin {M : Type} (o u v : Vec3) (m : M) :
    (Quad.new o u v m).origin = o := rfl

@[simp] theorem Quad.new_u {M : Type} (o u v : Vec3) (m : M) :
    (Quad.new o u v m).u = u := rfl

@[simp] theorem Quad.new_v {M : Type} (o u v : Vec3) (m : M) :
    (Quad.new o u v m).v = v := rfl

@[simp] theorem Quad.new_w {M : Type} (o u v : Vec3) (m : M) :
    (Quad.new o u v m).w = (u.cross v).div ((u.cross v).dot (u.cross v)) := rfl

@[simp] theorem Quad.new_normal {M : Type} (o u v : Vec3) (m : M) :
    (Quad.new o u v m).normal = (u.cross v).unit := rfl

/-- `Quad::hit`. -/
def Quad.hit {M : Type} (q : Quad M) (r : Ray) (ray_t : Interval ℝ) :
    Option (HitRecord M) :=
  let denom := q.normal.dot r.direction
  if -f64Epsilon < denom ∧ denom < f64Epsilon then none
  else
    let d := q.normal.dot q.origin
    let t := (d - q.normal.dot r.origin) / denom
    if ¬ ray_t.contains t then none
    else
      let intersection_point := r.at t
      let planar_hit_point := intersection_point - q.origin
      let alpha := q.w.dot (planar_hit_point.cross q.v)
      let beta := q.w.dot (q.u.cross planar_hit_point)
      if ¬ (Interval.mk (0 : ℝ) 1).contains alpha ∨ ¬ (Interval.mk (0 : ℝ) 1).contains beta
      then none
      else some (HitRecord.new intersection_point q.normal t r q.material)

/-- `Sphere::hit`. -/
def Sphere.hit {M : Type} (s : Sphere M) (r : Ray) (ray_t : Interval ℝ) :
    Option (HitRecord M) :=
  let oc := s.center - r.origin
  let a := r.direction.length_squared
  let h := r.direction.dot oc
  let c := oc.length_squared - s.radius * s.radius
  let discriminant := h * h - a * c
  if discriminant < 0 then none
  else
    let dsqrt := Real.sqrt discriminant
    let root1 := (h - dsqrt) / a
    if ray_t.surrounds root1 then
      some (HitRecord.new (r.at root1) ((r.at root1 - s.center).div s.radius) root1 r
        s.material)
    else
      let root2 := (h + dsqrt) / a
      if ray_t.surrounds root2 then
        some (HitRecord.new (r.at root2) ((r.at root2 - s.center).div s.radius) root2 r
          s.material)
      else none

/-- `Triangle::hit` (the Moeller-Trumbore intersection test). -/
def Triangle.hit {M : Type} (tr : Triangle M) (r : Ray) (ray_t : Interval ℝ) :
    Option (HitRecord M) :=
  let e1 := tr.b - tr.a
  let e2 := tr.c - tr.a
  let ray_cross_e2 := r.direction.cross e2
  let det := e1.dot ray_cross_e2
  if -f64Epsilon < det ∧ det < f64Epsilon then none
  else
    let inv_det := 1 / det
    let s := r.origin - tr.a
    let u := inv_det * s.dot ray_cross_e2
    if u < 0 ∨ u > 1 then none
    else
      let s_cross_e1 := s.cross e1
      let v := inv_det * r.direction.dot s_cross_e1
      if v < 0 ∨ u + v > 1 then none
      else
        let t := inv_det * e2.dot s_cross_e1
        if ¬ ray_t.surrounds t then none
        else some (HitRecord.new (r.origin + r.direction * t) tr.normal t r tr.material)

/-- The parameters `t` at which the ray meets the sphere's surface: the
intersection set of claim C2. -/
def Sphere.onSurface {M : Type} (s : Sphere M) (r : Ray) (t : ℝ) : Prop :=
  (r.at t - s.center).length_squared = s.radius * s.radius

/-- The parameters `t` at which the ray meets the (closed) triangle: the
intersection set of claim C2. -/
def Triangle.onSurface {M : Type} (tr : Triangle M) (r : Ray) (t : ℝ) : Prop :=
  ∃ u v : ℝ, 0 ≤ u ∧ 0 ≤ v ∧ u + v ≤ 1
    ∧ r.at t = tr.a + (tr.b - tr.a) * u + (tr.c - tr.a) * v

/-- The parameters `t` at which the ray meets the (closed) parallelogram:
the intersection set of claim C2. -/
def Quad.onSurface {M : Type} (q : Quad M) (r : Ray) (t : ℝ) : Prop :=
  ∃ α β : ℝ, 0 ≤ α ∧ α ≤ 1 ∧ 0 ≤ β ∧ β ≤ 1
    ∧ r.at t = q.origin + q.u * α + q.v * β

/-! ## Claim C3: the quad bounding box -/

/-- Claim C3 fails on the code: `Quad::new` builds `bbox_d2` from
`(origin + u, origin + u)` - the same corner twice, where the intended
second diagonal runs from `origin + u` to `origin + v` - so for the quad
with origin (0,0,0), u = (1,0,0), v = (-1,1,0) the corner `origin + v`
= (-1,1,0) lies outside the precomputed box, whose x interval is [0,1]. -/
theorem c3_quad_bbox_misses_corner :
    (Quad.new (M := Unit) ⟨0, 0, 0⟩ ⟨1, 0, 0⟩ ⟨-1, 1, 0⟩ ()).bbox
        = Aabb.mk ⟨0, 1⟩ ⟨0, 1⟩ ⟨0, 0⟩
    ∧ ¬ (Quad.new (M := Unit) ⟨0, 0, 0⟩ ⟨1, 0, 0⟩ ⟨-1, 1, 0⟩ ()).bbox.containsPoint
        (Vec3.mk 0 0 0 + Vec3.mk (-1) 1 0) := by
  have hbox : (Quad.new (M := Unit) ⟨0, 0, 0⟩ ⟨1, 0, 0⟩ ⟨-1, 1, 0⟩ ()).bbox
      = Aabb.mk ⟨0, 1⟩ ⟨0, 1⟩ ⟨0, 0⟩ := by
    show (Aabb.from_points ⟨0, 0, 0⟩ (⟨0, 0, 0⟩ + ⟨1, 0, 0⟩ + ⟨-1, 1, 0⟩)).merge
        (Aabb.from_points (⟨0, 0, 0⟩ + ⟨1, 0, 0⟩) (⟨0, 0, 0⟩ + ⟨1, 0, 0⟩))
      = Aabb.mk ⟨0, 1⟩ ⟨0, 1⟩ ⟨0, 0⟩
    norm_num [Aabb.from_points, Aabb.merge, Interval.merge]
  refine ⟨hbox, fun hcontains => ?_⟩
  rw [hbox] at hcontains
  obtain ⟨⟨hx, -⟩, -, -⟩ := hcontains
  norm_num [Vec3.add_def] at hx

/-! ## Claim C2: primitive hit contracts -/

/-- Counterexample to claim C2 as stated: `Quad::hit` accepts a parameter at
the very endpoint of the query interval (it tests `contains`, closed, where
`Sphere::hit` and `Triangle::hit` test `surrounds`, open).  The unit quad in
the z = 0 plane, hit from (1/4, 1/4, -1) along (0,0,1), returns the record
with `t = 1` for the interval `[1/2, 1]` although `1` is the interval's upper
endpoint, where the claim demands no hit. -/
theorem c2_quad_endpoint_cex :
    (((Quad.new (M := Unit) ⟨0, 0, 0⟩ ⟨1, 0, 0⟩ ⟨0, 1, 0⟩ ()).hit
        ⟨⟨1 / 4, 1 / 4, -1⟩, ⟨0, 0, 1⟩, 0⟩ ⟨1 / 2, 1⟩).map HitRecord.t = some 1)
    ∧ ¬ (Interval.mk (1 / 2 : ℝ) 1).surrounds 1 := by
  constructor
  · have hn : (Quad.new (M := Unit) ⟨0, 0, 0⟩ ⟨1, 0, 0⟩ ⟨0, 1, 0⟩ ()).normal
        = Vec3.mk 0 0 1 := by
      rw [Quad.new_normal]
      norm_num [Vec3.unit, Vec3.div, Vec3.cross, Vec3.length, Vec3.length_squared,
        Real.sqrt_one]
    have hw : (Quad.new (M := Unit) ⟨0, 0, 0⟩ ⟨1, 0, 0⟩ ⟨0, 1, 0⟩ ()).w
        = Vec3.mk 0 0 1 := by
      rw [Quad.new_w]
      norm_num [Vec3.div, Vec3.cross, Vec3.dot]
    simp only [Quad.hit, hn, hw, Quad.new_origin, Quad.new_u, Quad.new_v]
    rw [if_neg (by norm_num [Vec3.dot, f64Epsilon])]
    rw [if_neg (by norm_num [Vec3.dot, Interval.contains])]
    rw [if_neg (by norm_num [Vec3.dot, Vec3.cross, Interval.contains, Ray.at])]
    simp
    norm_num [Vec3.dot]
  · norm_num [Interval.surrounds]

theorem Vec3.length_squared_nonneg (v : Vec3) : 0 ≤ v.length_squared :=
  add_nonneg (add_nonneg (mul_self_nonneg _) (mul_self_nonneg _)) (mul_self_nonneg _)

theorem Vec3.length_squared_pos {v : Vec3} (h : v ≠ ⟨0, 0, 0⟩) :
    0 < v.length_squared := by
  rcases (Vec3.length_squared_nonneg v).lt_or_eq with hlt | heq
  · exact hlt
  · exfalso
    apply h
    simp only [Vec3.length_squared] at heq
    have hx : v.x = 0 := mul_self_eq_zero.mp (by nlinarith [mul_self_nonneg v.y, mul_self_nonneg v.z])
    have hy : v.y = 0 := mul_self_eq_zero.mp (by nlinarith [mul_self_nonneg v.x, mul_self_nonneg v.z])
    have hz : v.z = 0 := mul_self_eq_zero.mp (by nlinarith [mul_self_nonneg v.x, mul_self_nonneg v.y])
    ext <;> assumption

theorem quadratic_roots {a h c : ℝ} (ha : 0 < a) (hd : 0 ≤ h * h - a * c) (t : ℝ) :
    a * t ^ 2 - 2 * h * t + c = 0
      ↔ t = (h - Real.sqrt (h * h - a * c)) / a
        ∨ t = (h + Real.sqrt (h * h - a * c)) / a := by
  have ha' : a ≠ 0 := ne_of_gt ha
  set s := Real.sqrt (h * h - a * c) with hs
  have hs2 : s * s = h * h - a * c := Real.mul_self_sqrt hd
  have key : (a * t - h - s) * (a * t - h + s) = a * (a * t ^ 2 - 2 * h * t + c) := by
    have expand : (a * t - h - s) * (a * t - h + s) = (a * t - h) ^ 2 - s * s := by ring
    rw [expand, hs2]
    ring
  constructor
  · intro h0
    have hz : (a * t - h - s) * (a * t - h + s) = 0 := by rw [key, h0, mul_zero]
    rcases mul_eq_zero.mp hz with h1 | h1
    · right
      field_simp
      linarith
    · left
      field_simp
      linarith
  · intro ht
    have hz : (a * t - h - s) * (a * t - h + s) = 0 := by
      rcases ht with h1 | h1
      · have hat : a * t = h - s := by
          rw [h1]
          field_simp
        rw [hat]
        ring
      · have hat : a * t = h + s := by
          rw [h1]
          field_simp
        rw [hat]
        ring
    rw [key] at hz
    exact (mul_eq_zero.mp hz).resolve_left ha'

theorem quadratic_no_roots {a h c : ℝ} (ha : 0 < a) (hd : h * h - a * c < 0) (t : ℝ) :
    a * t ^ 2 - 2 * h * t + c ≠ 0 := by
  intro h0
  nlinarith [sq_nonneg (a * t - h)]

/-- The scalar core of `Sphere::hit`'s root selection: with positive leading
coefficient, the smaller quadratic root is tried first, so the returned root
is the least root strictly inside the interval, and when some root lies
strictly inside the interval the selection cannot fall through. -/
theorem sphere_root_selection {A H C : ℝ} (ha : 0 < A) (I : Interval ℝ) :
    (¬ H * H - A * C < 0 → I.surrounds ((H - Real.sqrt (H * H - A * C)) / A) →
      ∀ t', A * t' ^ 2 - 2 * H * t' + C = 0 → I.surrounds t' →
        (H - Real.sqrt (H * H - A * C)) / A ≤ t')
    ∧ (¬ H * H - A * C < 0 → ¬ I.surrounds ((H - Real.sqrt (H * H - A * C)) / A) →
        I.surrounds ((H + Real.sqrt (H * H - A * C)) / A) →
      ∀ t', A * t' ^ 2 - 2 * H * t' + C = 0 → I.surrounds t' →
        (H + Real.sqrt (H * H - A * C)) / A ≤ t')
    ∧ (∀ t', I.surrounds t' → A * t' ^ 2 - 2 * H * t' + C = 0 →
        ¬ H * H - A * C < 0
        ∧ (¬ I.surrounds ((H - Real.sqrt (H * H - A * C)) / A) →
            I.surrounds ((H + Real.sqrt (H * H - A * C)) / A)))
    ∧ (¬ H * H - A * C < 0 →
        A * ((H - Real.sqrt (H * H - A * C)) / A) ^ 2
            - 2 * H * ((H - Real.sqrt (H * H - A * C)) / A) + C = 0
        ∧ A * ((H + Real.sqrt (H * H - A * C)) / A) ^ 2
            - 2 * H * ((H + Real.sqrt (H * H - A * C)) / A) + C = 0) := by
  have hsq := Real.sqrt_nonneg (H * H - A * C)
  have hr12 : (H - Real.sqrt (H * H - A * C)) / A ≤ (H + Real.sqrt (H * H - A * C)) / A :=
    (div_le_div_iff_of_pos_right ha).mpr (by linarith)
  refine ⟨?_, ?_, ?_, ?_⟩
  · intro hd h2 t' hroot hst'
    rcases (quadratic_roots ha (not_lt.mp hd) t').mp hroot with h | h
    · rw [h]
    · rw [h]
      exact hr12
  · intro hd h2 h3 t' hroot hst'
    rcases (quadratic_roots ha (not_lt.mp hd) t').mp hroot with h | h
    · exact absurd (h ▸ hst') h2
    · rw [h]
  · intro t' hst' hroot
    have hd : ¬ H * H - A * C < 0 := fun hd => quadratic_no_roots ha hd t' hroot
    refine ⟨hd, fun h2 => ?_⟩
    rcases (quadratic_roots ha (not_lt.mp hd) t').mp hroot with h | h
    · exact absurd (h ▸ hst') h2
    · exact h ▸ hst'
  · intro hd
    exact ⟨(quadratic_roots ha (not_lt.mp hd) _).mpr (Or.inl rfl),
      (quadratic_roots ha (not_lt.mp hd) _).mpr (Or.inr rfl)⟩

/-- The sphere part of claim C2: whenever the ray direction is nonzero,
`Sphere::hit` returns a record only with parameter strictly inside the query
interval, that parameter is an intersection with the sphere surface and the
least intersection strictly inside the interval, and a `None` answer means no
intersection lies strictly inside the interval. -/
theorem sphere_hit_characterization {M : Type} (s : Sphere M) (r : Ray) (I : Interval ℝ)
    (hdir : r.direction ≠ ⟨0, 0, 0⟩) :
    (∀ rec, s.hit r I = some rec →
        I.surrounds rec.t ∧ s.onSurface r rec.t
        ∧ ∀ t', s.onSurface r t' → I.surrounds t' → rec.t ≤ t')
    ∧ (s.hit r I = none → ∀ t', I.surrounds t' → ¬ s.onSurface r t') := by
  have ha : 0 < r.direction.length_squared := Vec3.length_squared_pos hdir
  have hsurf : ∀ t, s.onSurface r t ↔
      r.direction.length_squared * t ^ 2
        - 2 * (r.direction.dot (s.center - r.origin)) * t
        + ((s.center - r.origin).length_squared - s.radius * s.radius) = 0 := by
    intro t
    unfold Sphere.onSurface
    rw [show r.direction.length_squared * t ^ 2
          - 2 * (r.direction.dot (s.center - r.origin)) * t
          + ((s.center - r.origin).length_squared - s.radius * s.radius)
        = (r.at t - s.center).length_squared - s.radius * s.radius from by
      simp only [Ray.at, Vec3.length_squared, Vec3.dot, Vec3.add_def, Vec3.sub_def,
        Vec3.mul_def]
      ring]
    exact sub_eq_zero.symm
  constructor
  · intro rec hrec
    simp only [Sphere.hit] at hrec
    split_ifs at hrec with h1 h2 h3
    · obtain rfl := Option.some.inj hrec
      refine ⟨h2, ?_, ?_⟩
      · rw [HitRecord.new_t, hsurf]
        exact ((sphere_root_selection ha I).2.2.2 h1).1
      · intro t' hsurf' hst'
        rw [HitRecord.new_t]
        exact (sphere_root_selection ha I).1 h1 h2 t' ((hsurf t').mp hsurf') hst'
    · obtain rfl := Option.some.inj hrec
      refine ⟨h3, ?_, ?_⟩
      · rw [HitRecord.new_t, hsurf]
        exact ((sphere_root_selection ha I).2.2.2 h1).2
      · intro t' hsurf' hst'
        rw [HitRecord.new_t]
        exact (sphere_root_selection ha I).2.1 h1 h2 h3 t' ((hsurf t').mp hsurf') hst'
  · intro hnone t' hst' hsurf'
    have hroot := (hsurf t').mp hsurf'
    have hcomp := (sphere_root_selection ha I).2.2.1 t' hst' hroot
    simp only [Sphere.hit] at hnone
    split_ifs at hnone with h1 h2 h3
    · exact hcomp.1 h1
    · exact h3 (hcomp.2 h2)

/-- The Moeller-Trumbore determinant of `Triangle::hit`. -/
def Triangle.det {M : Type} (tr : Triangle M) (r : Ray) : ℝ :=
  (tr.b - tr.a).dot (r.direction.cross (tr.c - tr.a))

theorem f64Epsilon_pos : 0 < f64Epsilon := by norm_num [f64Epsilon]

theorem ne_zero_of_not_near (x : ℝ) (h : ¬ (-f64Epsilon < x ∧ x < f64Epsilon)) :
    x ≠ 0 := by
  intro h0
  exact h (h0 ▸ ⟨neg_lt_zero.mpr f64Epsilon_pos, f64Epsilon_pos⟩)

/-- Cramer's rule, soundness: the Moeller-Trumbore parameters solve the
ray/triangle linear system whenever the determinant is nonzero. -/
theorem moller_trumbore_solves (o d a b c : Vec3)
    (hdet : (b - a).dot (d.cross (c - a)) ≠ 0) :
    o + d * (1 / ((b - a).dot (d.cross (c - a)))
        * ((c - a).dot ((o - a).cross (b - a))))
      = a + (b - a) * (1 / ((b - a).dot (d.cross (c - a)))
          * ((o - a).dot (d.cross (c - a))))
        + (c - a) * (1 / ((b - a).dot (d.cross (c - a)))
            * (d.dot ((o - a).cross (b - a)))) := by
  have hdet' : (b.x - a.x) * (d.y * (c.z - a.z) - d.z * (c.y - a.y))
      + (b.y - a.y) * (d.z * (c.x - a.x) - d.x * (c.z - a.z))
      + (b.z - a.z) * (d.x * (c.y - a.y) - d.y * (c.x - a.x)) ≠ 0 := hdet
  ext <;>
    simp only [Vec3.add_def, Vec3.sub_def, Vec3.mul_def, Vec3.dot, Vec3.cross] <;>
    field_simp <;>
    ring

/-- Cramer's rule, uniqueness: any solution of the ray/triangle linear system
has the Moeller-Trumbore parameters, provided the determinant is nonzero. -/
theorem moller_trumbore_unique (o d a b c : Vec3) (t' u' v' : ℝ)
    (hdet : (b - a).dot (d.cross (c - a)) ≠ 0)
    (heq : o + d * t' = a + (b - a) * u' + (c - a) * v') :
    t' = 1 / ((b - a).dot (d.cross (c - a)))
        * ((c - a).dot ((o - a).cross (b - a)))
    ∧ u' = 1 / ((b - a).dot (d.cross (c - a)))
        * ((o - a).dot (d.cross (c - a)))
    ∧ v' = 1 / ((b - a).dot (d.cross (c - a)))
        * (d.dot ((o - a).cross (b - a))) := by
  have hx := congrArg Vec3.x heq
  have hy := congrArg Vec3.y heq
  have hz := congrArg Vec3.z heq
  simp only [Vec3.add_def, Vec3.sub_def, Vec3.mul_def] at hx hy hz
  simp only [Vec3.dot, Vec3.cross, Vec3.sub_def] at hdet ⊢
  refine ⟨?_, ?_, ?_⟩
  · rw [one_div_mul_eq_div, eq_div_iff hdet]
    linear_combination
      (-((b.y - a.y) * (c.z - a.z) - (b.z - a.z) * (c.y - a.y))) * hx
      + (-((b.z - a.z) * (c.x - a.x) - (b.x - a.x) * (c.z - a.z))) * hy
      + (-((b.x - a.x) * (c.y - a.y) - (b.y - a.y) * (c.x - a.x))) * hz
  · rw [one_div_mul_eq_div, eq_div_iff hdet]
    linear_combination
      (-(d.y * (c.z - a.z) - d.z * (c.y - a.y))) * hx
      + (-(d.z * (c.x - a.x) - d.x * (c.z - a.z))) * hy
      + (-(d.x * (c.y - a.y) - d.y * (c.x - a.x))) * hz
  · rw [one_div_mul_eq_div, eq_div_iff hdet]
    linear_combination
      (d.y * (b.z - a.z) - d.z * (b.y - a.y)) * hx
      + (d.z * (b.x - a.x) - d.x * (b.z - a.z)) * hy
      + (d.x * (b.y - a.y) - d.y * (b.x - a.x)) * hz

/-- The triangle part of claim C2 (amended): `Triangle::hit` returns a record
only with parameter strictly inside the query interval, that parameter is an
intersection with the closed triangle and the only one (hence the nearest),
and - provided the determinant clears the `f64::EPSILON` parallel cutoff - a
`None` answer means no intersection lies strictly inside the interval. -/
theorem triangle_hit_characterization {M : Type} (tr : Triangle M) (r : Ray)
    (I : Interval ℝ) :
    (∀ rec, tr.hit r I = some rec →
        I.surrounds rec.t ∧ tr.onSurface r rec.t
        ∧ ∀ t', tr.onSurface r t' → I.surrounds t' → rec.t ≤ t')
    ∧ (¬ (-f64Epsilon < tr.det r ∧ tr.det r < f64Epsilon) → tr.hit r I = none →
        ∀ t', I.surrounds t' → ¬ tr.onSurface r t') := by
  constructor
  · intro rec hrec
    simp only [Triangle.hit] at hrec
    split_ifs at hrec with h1 h2 h3 h4
    obtain rfl := Option.some.inj hrec
    have hdet : (tr.b - tr.a).dot (r.direction.cross (tr.c - tr.a)) ≠ 0 :=
      ne_zero_of_not_near _ h1
    have hu : ¬ (1 / ((tr.b - tr.a).dot (r.direction.cross (tr.c - tr.a)))
        * ((r.origin - tr.a).dot (r.direction.cross (tr.c - tr.a))) < 0
        ∨ 1 / ((tr.b - tr.a).dot (r.direction.cross (tr.c - tr.a)))
          * ((r.origin - tr.a).dot (r.direction.cross (tr.c - tr.a))) > 1) := h2
    have hv : ¬ (1 / ((tr.b - tr.a).dot (r.direction.cross (tr.c - tr.a)))
        * (r.direction.dot ((r.origin - tr.a).cross (tr.b - tr.a))) < 0
        ∨ 1 / ((tr.b - tr.a).dot (r.direction.cross (tr.c - tr.a)))
            * ((r.origin - tr.a).dot (r.direction.cross (tr.c - tr.a)))
          + 1 / ((tr.b - tr.a).dot (r.direction.cross (tr.c - tr.a)))
            * (r.direction.dot ((r.origin - tr.a).cross (tr.b - tr.a))) > 1) := h3
    have ht : I.surrounds (1 / ((tr.b - tr.a).dot (r.direction.cross (tr.c - tr.a)))
        * ((tr.c - tr.a).dot ((r.origin - tr.a).cross (tr.b - tr.a)))) := h4
    push_neg at hu hv
    refine ⟨ht, ?_, ?_⟩
    · refine ⟨_, _, hu.1, hv.1, hv.2, ?_⟩
      show r.origin + r.direction
          * (1 / ((tr.b - tr.a).dot (r.direction.cross (tr.c - tr.a)))
            * ((tr.c - tr.a).dot ((r.origin - tr.a).cross (tr.b - tr.a)))) = _
      exact moller_trumbore_solves r.origin r.direction tr.a tr.b tr.c hdet
    · intro t' hsurf' hst'
      obtain ⟨u', v', -, -, -, heq'⟩ := hsurf'
      have huniq := moller_trumbore_unique r.origin r.direction tr.a tr.b tr.c
        t' u' v' hdet heq'
      rw [HitRecord.new_t, huniq.1]
  · intro heps hnone t' hst' hsurf'
    have hdet : (tr.b - tr.a).dot (r.direction.cross (tr.c - tr.a)) ≠ 0 :=
      ne_zero_of_not_near _ heps
    obtain ⟨u', v', hu0, hv0, huv, heq'⟩ := hsurf'
    obtain ⟨ht', hu', hv'⟩ := moller_trumbore_unique r.origin r.direction tr.a tr.b tr.c
      t' u' v' hdet heq'
    simp only [Triangle.hit] at hnone
    split_ifs at hnone with h1 h2 h3 h4
    · exact heps h1
    · have h2' : 1 / ((tr.b - tr.a).dot (r.direction.cross (tr.c - tr.a)))
          * ((r.origin - tr.a).dot (r.direction.cross (tr.c - tr.a))) < 0
          ∨ 1 / ((tr.b - tr.a).dot (r.direction.cross (tr.c - tr.a)))
            * ((r.origin - tr.a).dot (r.direction.cross (tr.c - tr.a))) > 1 := h2
      rcases h2' with hlt | hgt
      · rw [← hu'] at hlt
        linarith
      · rw [← hu'] at hgt
        linarith
    · have h3' : 1 / ((tr.b - tr.a).dot (r.direction.cross (tr.c - tr.a)))
          * (r.direction.dot ((r.origin - tr.a).cross (tr.b - tr.a))) < 0
          ∨ 1 / ((tr.b - tr.a).dot (r.direction.cross (tr.c - tr.a)))
              * ((r.origin - tr.a).dot (r.direction.cross (tr.c - tr.a)))
            + 1 / ((tr.b - tr.a).dot (r.direction.cross (tr.c - tr.a)))
              * (r.direction.dot ((r.origin - tr.a).cross (tr.b - tr.a))) > 1 := h3
      rcases h3' with hlt | hgt
      · rw [← hv'] at hlt
        linarith
      · rw [← hu', ← hv'] at hgt
        linarith
    · have h4' : ¬ I.surrounds (1 / ((tr.b - tr.a).dot (r.direction.cross (tr.c - tr.a)))
          * ((tr.c - tr.a).dot ((r.origin - tr.a).cross (tr.b - tr.a)))) := h4
      rw [← ht'] at h4'
      exact h4' hst'

theorem div_dot (a x : Vec3) (r : ℝ) : (a.div r).dot x = a.dot x / r := by
  simp only [Vec3.div, Vec3.dot, Vec3.mul_def]
  ring

theorem unit_dot (a x : Vec3) : a.unit.dot x = a.dot x / a.length := by
  simp only [Vec3.unit]
  exact div_dot a x a.length

theorem Vec3.length_squared_eq_dot (a : Vec3) : a.length_squared = a.dot a := rfl

theorem cross_dot_self_left (u v : Vec3) : (u.cross v).dot u = 0 := by
  simp only [Vec3.cross, Vec3.dot]
  ring

theorem cross_dot_self_right (u v : Vec3) : (u.cross v).dot v = 0 := by
  simp only [Vec3.cross, Vec3.dot]
  ring

/-- A vector orthogonal to `u x v` decomposes over `u` and `v`, scaled by the
squared norm of `u x v`. -/
theorem quad_decomp_scaled (u v q : Vec3) (hq : (u.cross v).dot q = 0) :
    q * ((u.cross v).dot (u.cross v))
      = u * ((u.cross v).dot (q.cross v)) + v * ((u.cross v).dot (u.cross q)) := by
  simp only [Vec3.dot, Vec3.cross] at hq
  ext <;> simp only [Vec3.mul_def, Vec3.add_def, Vec3.dot, Vec3.cross]
  · linear_combination (u.y * v.z - u.z * v.y) * hq
  · linear_combination (u.z * v.x - u.x * v.z) * hq
  · linear_combination (u.x * v.y - u.y * v.x) * hq

/-- The planar coordinates of a vector in the span of `u` and `v` are exactly
the `w`-projections `Quad::hit` computes. -/
theorem quad_coeffs_unique (u v q : Vec3) (α β : ℝ)
    (hnn : (u.cross v).dot (u.cross v) ≠ 0)
    (h : q = u * α + v * β) :
    α = (u.cross v).dot (q.cross v) / (u.cross v).dot (u.cross v)
    ∧ β = (u.cross v).dot (u.cross q) / (u.cross v).dot (u.cross v) := by
  have hx := congrArg Vec3.x h
  have hy := congrArg Vec3.y h
  have hz := congrArg Vec3.z h
  simp only [Vec3.mul_def, Vec3.add_def] at hx hy hz
  constructor
  · rw [eq_div_iff hnn]
    simp only [Vec3.dot, Vec3.cross]
    linear_combination
      (-(v.y * (u.x * v.y - u.y * v.x) - v.z * (u.z * v.x - u.x * v.z))) * hx
      + (-(v.z * (u.y * v.z - u.z * v.y) - v.x * (u.x * v.y - u.y * v.x))) * hy
      + (-(v.x * (u.z * v.x - u.x * v.z) - v.y * (u.y * v.z - u.z * v.y))) * hz
  · rw [eq_div_iff hnn]
    simp only [Vec3.dot, Vec3.cross]
    linear_combination
      (-((u.z * v.x - u.x * v.z) * u.z - (u.x * v.y - u.y * v.x) * u.y)) * hx
      + (-((u.x * v.y - u.y * v.x) * u.x - (u.y * v.z - u.z * v.y) * u.z)) * hy
      + (-((u.y * v.z - u.z * v.y) * u.y - (u.z * v.x - u.x * v.z) * u.x)) * hz

/-- On a plane with normal `n` not orthogonal to the ray direction, the ray
parameter of the plane intersection is unique. -/
theorem quad_plane_t (n orig : Vec3) (r : Ray) (t' : ℝ) (hnd : n.dot r.direction ≠ 0)
    (hplane : n.dot (r.at t' - orig) = 0) :
    t' = (n.dot orig - n.dot r.origin) / n.dot r.direction := by
  rw [eq_div_iff hnd]
  simp only [Ray.at, Vec3.dot, Vec3.add_def, Vec3.sub_def, Vec3.mul_def] at hplane ⊢
  linear_combination hplane

theorem dot_ray_at_sub (n orig : Vec3) (r : Ray) (t : ℝ) :
    n.dot (r.at t - orig) = n.dot r.origin + n.dot r.direction * t - n.dot orig := by
  simp only [Ray.at, Vec3.dot, Vec3.add_def, Vec3.sub_def, Vec3.mul_def]
  ring

theorem vec_decomp_div (q a b : Vec3) (A B N : ℝ) (hN : N ≠ 0)
    (h : q * N = a * A + b * B) : q = a * (A / N) + b * (B / N) := by
  have hx := congrArg Vec3.x h
  have hy := congrArg Vec3.y h
  have hz := congrArg Vec3.z h
  simp only [Vec3.mul_def, Vec3.add_def] at hx hy hz
  ext
  · simp only [Vec3.mul_def, Vec3.add_def]
    field_simp
    linear_combination hx
  · simp only [Vec3.mul_def, Vec3.add_def]
    field_simp
    linear_combination hy
  · simp only [Vec3.mul_def, Vec3.add_def]
    field_simp
    linear_combination hz

theorem vec_add_sub_cancel (a b : Vec3) : a + (b - a) = b := by
  ext <;> simp only [Vec3.add_def, Vec3.sub_def] <;> ring

theorem vec_add_sub_cancel_left (o x : Vec3) : o + x - o = x := by
  ext <;> simp only [Vec3.add_def, Vec3.sub_def] <;> ring

theorem vec_add_add_sub_cancel (o a b : Vec3) : o + a + b - o = a + b := by
  ext <;> simp only [Vec3.add_def, Vec3.sub_def] <;> ring

theorem vec_eq_add_add {o p a b : Vec3} (h : p - o = a + b) : p = o + a + b := by
  have hx := congrArg Vec3.x h
  have hy := congrArg Vec3.y h
  have hz := congrArg Vec3.z h
  simp only [Vec3.sub_def, Vec3.add_def] at hx hy hz
  ext <;> simp only [Vec3.add_def]
  · linarith
  · linarith
  · linarith

theorem dot_linear (n a b : Vec3) (α β : ℝ) :
    n.dot (a * α + b * β) = n.dot a * α + n.dot b * β := by
  simp only [Vec3.dot, Vec3.add_def, Vec3.mul_def]
  ring

/-- The quad part of claim C2 (amended): `Quad::hit` accepts parameters in
the closed query interval (`contains`, both endpoints allowed), the accepted
parameter is an intersection with the closed parallelogram and the only one
(hence the nearest), and - provided the plane denominator clears the
`f64::EPSILON` parallel cutoff - a `None` answer means no intersection lies
in the closed interval. -/
theorem quad_hit_characterization {M : Type} (o u v : Vec3) (m : M) (r : Ray)
    (I : Interval ℝ) :
    (∀ rec, (Quad.new o u v m).hit r I = some rec →
        I.contains rec.t ∧ (Quad.new o u v m).onSurface r rec.t
        ∧ ∀ t', (Quad.new o u v m).onSurface r t' → I.contains t' → rec.t ≤ t')
    ∧ (¬ (-f64Epsilon < (u.cross v).unit.dot r.direction
          ∧ (u.cross v).unit.dot r.direction < f64Epsilon) →
        (Quad.new o u v m).hit r I = none →
        ∀ t', I.contains t' → ¬ (Quad.new o u v m).onSurface r t') := by
  have hbasic : ¬ (-f64Epsilon < (u.cross v).unit.dot r.direction
        ∧ (u.cross v).unit.dot r.direction < f64Epsilon) →
      (u.cross v).length ≠ 0 ∧ (u.cross v).dot r.direction ≠ 0
        ∧ (u.cross v).dot (u.cross v) ≠ 0 := by
    intro h1
    have hden : (u.cross v).unit.dot r.direction ≠ 0 := ne_zero_of_not_near _ h1
    have hL : (u.cross v).length ≠ 0 := by
      intro h0
      exact hden (by rw [unit_dot, h0, div_zero])
    have hnd : (u.cross v).dot r.direction ≠ 0 := by
      intro h0
      exact hden (by rw [unit_dot, h0, zero_div])
    refine ⟨hL, hnd, ?_⟩
    have hpos : 0 < (u.cross v).length_squared := by
      apply Real.sqrt_ne_zero'.mp
      simpa [Vec3.length] using hL
    rw [← Vec3.length_squared_eq_dot]
    exact ne_of_gt hpos
  have htC : ∀ hL : (u.cross v).length ≠ 0, ∀ hnd : (u.cross v).dot r.direction ≠ 0,
      ((u.cross v).unit.dot o - (u.cross v).unit.dot r.origin)
          / (u.cross v).unit.dot r.direction
        = ((u.cross v).dot o - (u.cross v).dot r.origin) / (u.cross v).dot r.direction := by
    intro hL hnd
    rw [unit_dot, unit_dot, unit_dot, div_sub_div_same, div_div_div_cancel_right₀]
    exact hL
  have hplaneC : ∀ hnd : (u.cross v).dot r.direction ≠ 0,
      (u.cross v).dot (r.at (((u.cross v).dot o - (u.cross v).dot r.origin)
          / (u.cross v).dot r.direction) - o) = 0 := by
    intro hnd
    rw [dot_ray_at_sub]
    field_simp
  constructor
  · intro rec hrec
    simp only [Quad.hit, Quad.new_normal, Quad.new_origin, Quad.new_u, Quad.new_v,
      Quad.new_w] at hrec
    split_ifs at hrec with h1 h2 h3
    obtain rfl := Option.some.inj hrec
    obtain ⟨hL, hnd, hnn⟩ := hbasic h1
    rw [HitRecord.new_t]
    rw [htC hL hnd] at h2 h3 ⊢
    have hplane := hplaneC hnd
    have hdecomp := vec_decomp_div _ u v _ _ _ hnn
      (quad_decomp_scaled u v
        (r.at (((u.cross v).dot o - (u.cross v).dot r.origin)
          / (u.cross v).dot r.direction) - o) hplane)
    rw [div_dot, div_dot] at h3
    push_neg at h3
    obtain ⟨hαc, hβc⟩ := h3
    refine ⟨h2, ?_, ?_⟩
    · refine ⟨(u.cross v).dot ((r.at (((u.cross v).dot o - (u.cross v).dot r.origin)
          / (u.cross v).dot r.direction) - o).cross v) / (u.cross v).dot (u.cross v),
        (u.cross v).dot (u.cross (r.at (((u.cross v).dot o - (u.cross v).dot r.origin)
          / (u.cross v).dot r.direction) - o)) / (u.cross v).dot (u.cross v),
        hαc.1, hαc.2, hβc.1, hβc.2, ?_⟩
      rw [Quad.new_origin, Quad.new_u, Quad.new_v]
      exact vec_eq_add_add hdecomp
    · intro t' hsurf' hct'
      obtain ⟨α', β', -, -, -, -, heq'⟩ := hsurf'
      rw [Quad.new_origin, Quad.new_u, Quad.new_v] at heq'
      have hq'eq : r.at t' - o = u * α' + v * β' := by
        rw [heq', vec_add_add_sub_cancel]
      have hplane' : (u.cross v).dot (r.at t' - o) = 0 := by
        rw [hq'eq, dot_linear, cross_dot_self_left, cross_dot_self_right]
        ring
      have ht'eq := quad_plane_t (u.cross v) o r t' hnd hplane'
      rw [ht'eq]
  · intro heps hnone t' hct' hsurf'
    obtain ⟨hL, hnd, hnn⟩ := hbasic heps
    obtain ⟨α', β', hα0, hα1, hβ0, hβ1, heq'⟩ := hsurf'
    rw [Quad.new_origin, Quad.new_u, Quad.new_v] at heq'
    have hq'eq : r.at t' - o = u * α' + v * β' := by
      rw [heq', vec_add_add_sub_cancel]
    have hplane' : (u.cross v).dot (r.at t' - o) = 0 := by
      rw [hq'eq, dot_linear, cross_dot_self_left, cross_dot_self_right]
      ring
    have ht'eq := quad_plane_t (u.cross v) o r t' hnd hplane'
    obtain ⟨hα', hβ'⟩ := quad_coeffs_unique u v _ α' β' hnn hq'eq
    have hsome : (Quad.new o u v m).hit r I ≠ none := by
      simp only [Quad.hit, Quad.new_normal, Quad.new_origin, Quad.new_u, Quad.new_v,
        Quad.new_w]
      rw [if_neg heps]
      rw [if_neg (show ¬ ¬ I.contains (((u.cross v).unit.dot o
          - (u.cross v).unit.dot r.origin) / (u.cross v).unit.dot r.direction) from by
        rw [htC hL hnd, ← ht'eq]
        exact not_not_intro hct')]
      rw [if_neg (show ¬ (¬ (Interval.mk (0 : ℝ) 1).contains
            (((u.cross v).div ((u.cross v).dot (u.cross v))).dot
              ((r.at (((u.cross v).unit.dot o - (u.cross v).unit.dot r.origin)
                  / (u.cross v).unit.dot r.direction) - o).cross v))
          ∨ ¬ (Interval.mk (0 : ℝ) 1).contains
            (((u.cross v).div ((u.cross v).dot (u.cross v))).dot
              (u.cross (r.at (((u.cross v).unit.dot o - (u.cross v).unit.dot r.origin)
                  / (u.cross v).unit.dot r.direction) - o)))) from by
        rw [htC hL hnd, ← ht'eq, div_dot, div_dot, ← hα', ← hβ']
        push_neg
        exact ⟨⟨hα0, hα1⟩, ⟨hβ0, hβ1⟩⟩)]
      simp
    exact hsome hnone

/-- Claim C2, amended: for a ray with nonzero direction, `Sphere::hit` and
`Triangle::hit` return a record only when its parameter lies strictly inside
the query interval (open on both ends) and that parameter is the nearest
intersection strictly inside the interval, returning nothing when there is
none (for the triangle, provided its Moeller-Trumbore determinant clears the
`f64::EPSILON` parallel cutoff); `Quad::hit`, however, tests the closed
interval - endpoints allowed - and returns the nearest (indeed only)
plane intersection in the closed interval, nothing when there is none and
the plane denominator clears the `f64::EPSILON` cutoff. -/
theorem c2_primitive_hit_nearest :
    (∀ (M : Type) (s : Sphere M) (r : Ray) (I : Interval ℝ),
        r.direction ≠ ⟨0, 0, 0⟩ →
        (∀ rec, s.hit r I = some rec →
            I.surrounds rec.t ∧ s.onSurface r rec.t
            ∧ ∀ t', s.onSurface r t' → I.surrounds t' → rec.t ≤ t')
          ∧ (s.hit r I = none → ∀ t', I.surrounds t' → ¬ s.onSurface r t'))
    ∧ (∀ (M : Type) (tr : Triangle M) (r : Ray) (I : Interval ℝ),
        (∀ rec, tr.hit r I = some rec →
            I.surrounds rec.t ∧ tr.onSurface r rec.t
            ∧ ∀ t', tr.onSurface r t' → I.surrounds t' → rec.t ≤ t')
          ∧ (¬ (-f64Epsilon < tr.det r ∧ tr.det r < f64Epsilon) → tr.hit r I = none →
              ∀ t', I.surrounds t' → ¬ tr.onSurface r t'))
    ∧ (∀ (M : Type) (o u v : Vec3) (m : M) (r : Ray) (I : Interval ℝ),
        (∀ rec, (Quad.new o u v m).hit r I = some rec →
            I.contains rec.t ∧ (Quad.new o u v m).onSurface r rec.t
            ∧ ∀ t', (Quad.new o u v m).onSurface r t' → I.contains t' → rec.t ≤ t')
          ∧ (¬ (-f64Epsilon < (u.cross v).unit.dot r.direction
                ∧ (u.cross v).unit.dot r.direction < f64Epsilon) →
              (Quad.new o u v m).hit r I = none →
              ∀ t', I.contains t' → ¬ (Quad.new o u v m).onSurface r t')) :=
  ⟨fun _ s r I h => sphere_hit_characterization s r I h,
   fun _ tr r I => triangle_hit_characterization tr r I,
   fun _ o u v m r I => quad_hit_characterization o u v m r I⟩

/-- Witness for C2: the unit sphere at the origin, hit from (-2,0,0) along
(1,0,0) with query interval (1/2, 10), returns the near root t = 1: strictly
inside the interval and on the sphere's surface. -/
theorem c2_primitive_hit_witness :
    (Interval.mk (1 / 2 : ℝ) 10).surrounds 1
    ∧ (Sphere.new (M := Unit) ⟨0, 0, 0⟩ 1 ()).onSurface ⟨⟨-2, 0, 0⟩, ⟨1, 0, 0⟩, 0⟩ 1 := by
  have heval : (Sphere.new (M := Unit) ⟨0, 0, 0⟩ 1 ()).hit
      ⟨⟨-2, 0, 0⟩, ⟨1, 0, 0⟩, 0⟩ ⟨1 / 2, 10⟩
      = some (HitRecord.new ⟨-1, 0, 0⟩ ⟨-1, 0, 0⟩ 1 ⟨⟨-2, 0, 0⟩, ⟨1, 0, 0⟩, 0⟩ ()) := by
    norm_num [Sphere.hit, Sphere.new, Vec3.dot, Vec3.length_squared, Interval.surrounds,
      Ray.at, Vec3.div, Real.sqrt_one]
  have hmain := (c2_primitive_hit_nearest.1 Unit (Sphere.new ⟨0, 0, 0⟩ 1 ())
      ⟨⟨-2, 0, 0⟩, ⟨1, 0, 0⟩, 0⟩ ⟨1 / 2, 10⟩
      (fun h0 => one_ne_zero (congrArg Vec3.x h0))).1
  obtain ⟨h1, h2, -⟩ := hmain _ heval
  rw [HitRecord.new_t] at h1 h2
  exact ⟨h1, h2⟩

/-! ## hit.rs scene scan and bvh.rs -/

/-- A scene object (`Arc<dyn DynHit>`): one of the three primitives. -/
inductive Obj (M : Type) where
  | sphere : Sphere M → Obj M
  | quad : Quad M → Obj M
  | tri : Triangle M → Obj M

/-- Dispatch of the `Hit` trait's `hit`. -/
def Obj.hit {M : Type} : Obj M → Ray → Interval ℝ → Option (HitRecord M)
  | .sphere s, r, i => s.hit r i
  | .quad q, r, i => q.hit r i
  | .tri t, r, i => t.hit r i

/-- Dispatch of the `Hit` trait's `aabb`: the precomputed box. -/
def Obj.aabb {M : Type} : Obj M → Aabb ℝ
  | .sphere s => s.bbox
  | .quad q => q.bbox
  | .tri t => t.bbox

/-- `HitList::hit` (src/hit.rs): scan the objects in order, shrinking the
interval's upper bound to the closest `t` found so far. -/
def HitList.hit {M : Type} (list : List (Obj M)) (ray : Ray) (ray_t : Interval ℝ) :
    Option (HitRecord M) :=
  (list.foldl (fun acc obj =>
      match obj.hit ray ⟨ray_t.min, acc.2⟩ with
      | some h => (some h, h.t)
      | none => acc)
    ((none : Option (HitRecord M)), ray_t.max)).1

/-- One axis of `Aabb::hit`'s slab loop: shrink the ray interval, and reject
(the loop's early `false` return, here `none`) when `max <= min`. -/
def slabUpdate (axis : Interval ℝ) (o d : ℝ) (ray_t : Interval ℝ) :
    Option (Interval ℝ) :=
  let adinv := 1 / d
  let t0 := (axis.min - o) * adinv
  let t1 := (axis.max - o) * adinv
  let mn := if t0 < t1 then (if t0 > ray_t.min then t0 else ray_t.min)
            else (if t1 > ray_t.min then t1 else ray_t.min)
  let mx := if t0 < t1 then (if t1 < ray_t.max then t1 else ray_t.max)
            else (if t0 < ray_t.max then t0 else ray_t.max)
  if mx ≤ mn then none else some ⟨mn, mx⟩

/-- `Aabb::hit`: the slab test along the three axes in order. -/
def Aabb.hit (b : Aabb ℝ) (ray : Ray) (ray_t : Interval ℝ) : Bool :=
  ((slabUpdate b.x ray.origin.x ray.direction.x ray_t).bind fun rt1 =>
    (slabUpdate b.y ray.origin.y ray.direction.y rt1).bind fun rt2 =>
      slabUpdate b.z ray.origin.z ray.direction.z rt2).isSome

/-- `Bvh` and `BvhNode` from src/bvh.rs, fused into one tree with each
node's bounding box stored at the constructor. -/
inductive Bvh (M : Type) where
  | leaf : Obj M → Aabb ℝ → Bvh M
  | node : Bvh M → Bvh M → Aabb ℝ → Bvh M

/-- `Bvh::hit`: cull on the node box, else recurse, narrowing the right
child's interval to the left child's hit. -/
def Bvh.hit {M : Type} : Bvh M → Ray → Interval ℝ → Option (HitRecord M)
  | .leaf obj bb, ray, ray_t =>
    if bb.hit ray ray_t then obj.hit ray ray_t else none
  | .node left right bb, ray, ray_t =>
    if bb.hit ray ray_t then
      let lres := left.hit ray ray_t
      let mx := match lres with
        | some h => h.t
        | none => ray_t.max
      let rres := right.hit ray ⟨ray_t.min, mx⟩
      match lres, rres with
      | _, some rh => some rh
      | some lh, none => some lh
      | none, none => none
    else none

/-- `Bvh::from_list`: `none` embeds the assertion failure on an empty slice;
the in-place `sort_by` (ascending `total_cmp` on the minimum coordinate along
the chosen axis) becomes a stable merge sort. -/
def Bvh.from_list {M : Type} : List (Obj M) → Option (Bvh M)
  | [] => none
  | [x] => some (Bvh.leaf x (Aabb.default.merge x.aabb))
  | x :: y :: rest =>
    let l := x :: y :: rest
    let bbox := l.foldl (fun b o => b.merge o.aabb) Aabb.default
    let axis := bbox.longest_axis
    let sorted := l.mergeSort (fun a b =>
      decide ((a.aabb.get axis).min ≤ (b.aabb.get axis).min))
    let mid := sorted.length / 2
    match Bvh.from_list (sorted.take mid), Bvh.from_list (sorted.drop mid) with
    | some left, some right => some (Bvh.node left right bbox)
    | _, _ => none
termination_by l => l.length
decreasing_by
  · simp only [List.length_take, List.length_mergeSort, List.length_cons]
    omega
  · simp only [List.length_drop, List.length_mergeSort, List.length_cons]
    omega

/-! ## Claim C1: the BVH against the linear scan -/

/-- The one-object scene of claim C1: the unit quad in the z = 0 plane. -/
def c1Scene : List (Obj Unit) :=
  [Obj.quad (Quad.new ⟨0, 0, 0⟩ ⟨1, 0, 0⟩ ⟨0, 1, 0⟩ ())]

/-- The witness ray of claim C1: from (-3/4, -3/4, -1) along (1, 1, 1), it
meets the quad at t = 1 in the interior point (1/4, 1/4, 0). -/
def c1Ray : Ray := ⟨⟨-3 / 4, -3 / 4, -1⟩, ⟨1, 1, 1⟩, 0⟩

/-- The query interval of claim C1. -/
def c1Interval : Interval ℝ := ⟨1 / 2, 100⟩

/-- Claim C1 fails on the code: on the one-quad scene the BVH built by
`Bvh::from_list` answers no-hit while the linear scan `HitList::hit` finds
the hit at t = 1.  The quad's bounding box is flat in z (the interval
[0, 0]), the slab test's z axis then yields `max = min = 1`, and the
`max <= min` early-out rejects the ray before the leaf is ever queried. -/
theorem c1_bvh_misses_quad_hit :
    ((Bvh.from_list c1Scene).map fun b => (b.hit c1Ray c1Interval).isSome) = some false
    ∧ (HitList.hit c1Scene c1Ray c1Interval).map HitRecord.t = some 1 := by
  have hquadbb : (Quad.new (M := Unit) ⟨0, 0, 0⟩ ⟨1, 0, 0⟩ ⟨0, 1, 0⟩ ()).bbox
      = Aabb.mk ⟨0, 1⟩ ⟨0, 1⟩ ⟨0, 0⟩ := by
    show (Aabb.from_points ⟨0, 0, 0⟩ (⟨0, 0, 0⟩ + ⟨1, 0, 0⟩ + ⟨0, 1, 0⟩)).merge
        (Aabb.from_points (⟨0, 0, 0⟩ + ⟨1, 0, 0⟩) (⟨0, 0, 0⟩ + ⟨1, 0, 0⟩))
      = Aabb.mk ⟨0, 1⟩ ⟨0, 1⟩ ⟨0, 0⟩
    norm_num [Aabb.from_points, Aabb.merge, Interval.merge]
  have hn : (Quad.new (M := Unit) ⟨0, 0, 0⟩ ⟨1, 0, 0⟩ ⟨0, 1, 0⟩ ()).normal
      = Vec3.mk 0 0 1 := by
    rw [Quad.new_normal]
    norm_num [Vec3.unit, Vec3.div, Vec3.cross, Vec3.length, Vec3.length_squared,
      Real.sqrt_one]
  have hw : (Quad.new (M := Unit) ⟨0, 0, 0⟩ ⟨1, 0, 0⟩ ⟨0, 1, 0⟩ ()).w
      = Vec3.mk 0 0 1 := by
    rw [Quad.new_w]
    norm_num [Vec3.div, Vec3.cross, Vec3.dot]
  constructor
  · have hfl : Bvh.from_list c1Scene
        = some (Bvh.leaf (Obj.quad (Quad.new ⟨0, 0, 0⟩ ⟨1, 0, 0⟩ ⟨0, 1, 0⟩ ()))
            (Aabb.mk ⟨0, 1⟩ ⟨0, 1⟩ ⟨0, 0⟩)) := by
      rw [c1Scene]
      simp only [Bvh.from_list, Obj.aabb, hquadbb]
      norm_num [Aabb.default, Aabb.merge, Interval.merge]
    rw [hfl]
    have hbbhit : (Aabb.mk (⟨0, 1⟩ : Interval ℝ) ⟨0, 1⟩ ⟨0, 0⟩).hit c1Ray c1Interval
        = false := by
      have hx : slabUpdate ⟨0, 1⟩ (-3 / 4 : ℝ) 1 ⟨1 / 2, 100⟩ = some ⟨3 / 4, 7 / 4⟩ := by
        norm_num [slabUpdate]
      have hy : slabUpdate ⟨0, 1⟩ (-3 / 4 : ℝ) 1 ⟨3 / 4, 7 / 4⟩ = some ⟨3 / 4, 7 / 4⟩ := by
        norm_num [slabUpdate]
      have hz : slabUpdate ⟨0, 0⟩ (-1 : ℝ) 1 ⟨3 / 4, 7 / 4⟩ = none := by
        norm_num [slabUpdate]
      simp only [Aabb.hit, c1Ray, c1Interval, hx, hy, hz, Option.bind, Option.isSome]
    simp [Bvh.hit, hbbhit]
  · have hqhit : (Quad.new (M := Unit) ⟨0, 0, 0⟩ ⟨1, 0, 0⟩ ⟨0, 1, 0⟩ ()).hit c1Ray
        ⟨1 / 2, 100⟩
        = some (HitRecord.new ⟨1 / 4, 1 / 4, 0⟩ ⟨0, 0, 1⟩ 1
            ⟨⟨-3 / 4, -3 / 4, -1⟩, ⟨1, 1, 1⟩, 0⟩ ()) := by
      simp only [Quad.hit, hn, hw, Quad.new_origin, Quad.new_u, Quad.new_v, c1Ray]
      rw [if_neg (by norm_num [Vec3.dot, f64Epsilon])]
      rw [if_neg (by norm_num [Vec3.dot, Interval.contains])]
      rw [if_neg (by norm_num [Vec3.dot, Vec3.cross, Interval.contains, Ray.at])]
      norm_num [Vec3.dot, Ray.at]
    simp only [HitList.hit, c1Scene, c1Interval, List.foldl_cons, List.foldl_nil]
    simp only [Obj.hit, hqhit, Option.map_some', HitRecord.new_t]

end

end RayTrace
